import Mathlib

/-!
Verification development for the house-evaluation repository.

The Python source is shallowly embedded: strings are `List Char`, Python
floats are modelled as exact rationals, `json.loads` is treated as an
external oracle producing a `Json` tree, model invocations and image
fetches are oracles supplied through an `Env` record, and the on-disk
store is an association list from house id to record.  Python exceptions
are modelled with `Except PyExc`.  Python bool-as-int arithmetic in
numeric positions and pydantic lax coercions beyond the basic type checks
are not modelled; no property proved below depends on them.
-/

/-! ## Python string primitives (`str.split`, `str.replace`, slicing) -/

abbrev Str := List Char

/-- Accumulator-based word splitter: `wordsAux s acc` mirrors Python
`str.split()` scanning `s` with the (reversed) current word `acc`. -/
def wordsAux : Str → Str → List Str
  | [], acc => if acc.isEmpty then [] else [acc.reverse]
  | c :: cs, acc =>
    if c.isWhitespace then
      if acc.isEmpty then wordsAux cs [] else acc.reverse :: wordsAux cs []
    else wordsAux cs (c :: acc)

/-- Python `s.split()`: split on whitespace runs, dropping empty words. -/
def pyWords (s : Str) : List Str := wordsAux s []

/-- Python `" ".join(ws)`. -/
def joinSpace (ws : List Str) : Str := (ws.intersperse [' ']).flatten

/-- Python `" ".join(s.split())`. -/
def collapseWs (s : Str) : Str := joinSpace (pyWords s)

/-- Does `p` occur as a contiguous substring of the second argument
(Python `p in s`)? -/
def containsSub (p : Str) : Str → Bool
  | [] => p.isEmpty
  | c :: cs => p.isPrefixOf (c :: cs) || containsSub p cs

/-- Fuelled worker for Python `s.replace(p, r)`: scan left to right,
replacing non-overlapping occurrences.  The fuel bounds the number of
scanning steps; `s.length` is always sufficient because every step
consumes at least one input character. -/
def replaceAllFuel (p r : Str) : Nat → Str → Str
  | _, [] => []
  | 0, s => s
  | fuel + 1, c :: cs =>
    if p.isPrefixOf (c :: cs) then r ++ replaceAllFuel p r fuel ((c :: cs).drop p.length)
    else c :: replaceAllFuel p r fuel cs

/-- Python `s.replace(p, r)` for a non-empty pattern `p`. -/
def pyReplace (s p r : Str) : Str := replaceAllFuel p r s.length s

/-- First index `i ≥ start` at which `p` occurs in `s` (Python `s.find(p, start)`
restricted to the found case). -/
def findSub (s p : Str) (start : Nat) : Option Nat :=
  ((List.range (s.length + 1)).filter
    (fun i => decide (start ≤ i) && p.isPrefixOf (s.drop i))).head?

/-- Python `s.find(p, start)`: index of first occurrence, or `-1`. -/
def pyFind (s p : Str) (start : Nat) : Int :=
  match findSub s p start with
  | some i => (i : Int)
  | none => -1

/-- Python slice `s[a:b]` for a non-negative start index `a` and a possibly
negative end index `b`. -/
def pySlice (s : Str) (a : Nat) (b : Int) : Str :=
  let n : Int := s.length
  let e : Int := if b < 0 then n + b else b
  let e := if e < 0 then 0 else if e > n then n else e
  (s.take e.toNat).drop a

/-- Drop leading whitespace characters. -/
def dropLeadingWs : Str → Str
  | [] => []
  | c :: cs => if c.isWhitespace then dropLeadingWs cs else c :: cs

/-- Python `s.strip()`. -/
def pyStrip (s : Str) : Str := (dropLeadingWs (dropLeadingWs s).reverse).reverse

/-! ## `JsonStore.normalize_address` (src/storage/json_store.py) -/

/-- The abbreviation-expansion table of `normalize_address`, in source
order.  A pattern ending in `$` is applied only as a suffix. -/
def replacements : List (Str × Str) :=
  [(" st ".data, " street ".data), (" st$".data, " street".data),
   (" dr ".data, " drive ".data), (" dr$".data, " drive".data),
   (" ave ".data, " avenue ".data), (" ave$".data, " avenue".data),
   (" rd ".data, " road ".data), (" rd$".data, " road".data),
   (" ln ".data, " lane ".data), (" ln$".data, " lane".data),
   (" ct ".data, " court ".data), (" ct$".data, " court".data),
   (" cir ".data, " circle ".data), (" cir$".data, " circle".data),
   (" blvd ".data, " boulevard ".data), (" blvd$".data, " boulevard".data),
   (" pl ".data, " place ".data), (" pl$".data, " place".data)]

/-- One pass of the replacement loop body: a `$`-pattern is expanded when it
matches a suffix (`addr[:-len(abbr)+1] + full`), any other pattern by a
global `str.replace`. -/
def applyReplacement (addr : Str) (rule : Str × Str) : Str :=
  if rule.1.getLast? = some '$' then
    let p := rule.1.dropLast
    if p.isSuffixOf addr then addr.take (addr.length - p.length) ++ rule.2 else addr
  else pyReplace addr rule.1 rule.2

/-- The full replacement loop of `normalize_address`. -/
def applyReplacements (addr : Str) : Str := replacements.foldl applyReplacement addr

/-- Map any character that is neither alphanumeric nor a space to a space
(the punctuation-removal comprehension of `normalize_address`). -/
def punctToSpace (s : Str) : Str :=
  s.map (fun c => if c.isAlphanum || c = ' ' then c else ' ')

/-- Lowercase every character (Python `str.lower`, basic-latin letters). -/
def lowerStr (s : Str) : Str := s.map Char.toLower

/-- `JsonStore.normalize_address`: lowercase and collapse whitespace, strip
punctuation to spaces, expand street-type abbreviations, and collapse
whitespace again. -/
def normalizeList (address : Str) : Str :=
  let addr := collapseWs (lowerStr address)
  let addr := punctToSpace addr
  let addr := applyReplacements addr
  collapseWs addr

/-- `JsonStore.normalize_address` on `String`. -/
def normalize_address (address : String) : String := ⟨normalizeList address.data⟩

example : normalize_address "123 Main St." = "123 main street" := by decide
example : normalize_address "123 MAIN STREET" = "123 main street" := by decide
example : normalize_address "1 st st x" = "1 street st x" := by decide
example : normalize_address "1 street st x" = "1 street street x" := by decide
example : normalize_address "456 Oak Ave" = "456 oak avenue" := by decide

/-! ## Image composite service (src/services/image_composite.py)

PIL images are abstracted to their pixel dimensions; fetching is an
oracle `String → Option ImageData` (a `none` result stands for any
swallowed fetch failure); PNG encoding is not modelled, so a composite is
described by its canvas geometry and cell placements. -/

structure ImageData where
  width : Nat
  height : Nat
deriving DecidableEq, Repr

/-- Fuelled upward search for the least `k` with `n ≤ k * k`. -/
def ceilSqrtAux (n : Nat) : Nat → Nat → Nat
  | 0, k => k
  | fuel + 1, k => if n ≤ k * k then k else ceilSqrtAux n fuel (k + 1)

/-- Exact-arithmetic ceiling square root, the value of
`math.ceil(math.sqrt n)`: the least `k` with `n ≤ k * k`
(see `ceilSqrt_le_sq` and `ceilSqrt_min` below). -/
def ceilSqrt (n : Nat) : Nat := ceilSqrtAux n (n + 1) 0

theorem ceilSqrtAux_le_sq (n : Nat) :
    ∀ fuel k, n ≤ (k + fuel) * (k + fuel) → n ≤ ceilSqrtAux n fuel k * ceilSqrtAux n fuel k := by
  intro fuel
  induction fuel with
  | zero => intro k h; simp only [ceilSqrtAux]; simpa using h
  | succ f ih =>
    intro k h
    by_cases hk : n ≤ k * k
    · simp [ceilSqrtAux, hk]
    · simp only [ceilSqrtAux, if_neg hk]
      refine ih (k + 1) ?_
      have he : k + (f + 1) = (k + 1) + f := by omega
      rwa [he] at h

/-- `ceilSqrt n` squared dominates `n`. -/
theorem ceilSqrt_le_sq (n : Nat) : n ≤ ceilSqrt n * ceilSqrt n := by
  refine ceilSqrtAux_le_sq n (n + 1) 0 ?_
  have h1 : n ≤ n + 1 := by omega
  have h2 : n + 1 ≤ (n + 1) * (n + 1) := Nat.le_mul_of_pos_left _ (by omega)
  simpa using Nat.le_trans h1 h2

theorem ceilSqrtAux_min (n : Nat) :
    ∀ fuel k m, k ≤ m → n ≤ m * m → ceilSqrtAux n fuel k ≤ m := by
  intro fuel
  induction fuel with
  | zero => intro k m hkm _; simpa [ceilSqrtAux] using hkm
  | succ f ih =>
    intro k m hkm hm
    by_cases hk : n ≤ k * k
    · simpa [ceilSqrtAux, hk] using hkm
    · simp only [ceilSqrtAux, if_neg hk]
      refine ih (k + 1) m ?_ hm
      rcases Nat.eq_or_lt_of_le hkm with h | h
      · exact absurd (h ▸ hm) hk
      · omega

/-- `ceilSqrt n` is the least `k` with `n ≤ k * k`. -/
theorem ceilSqrt_min (n m : Nat) (hm : n ≤ m * m) : ceilSqrt n ≤ m :=
  ceilSqrtAux_min n (n + 1) 0 m (Nat.zero_le m) hm

/-- `calculate_grid_dimensions(num_images, max_cols)` with exact arithmetic
in place of Python float `sqrt`, `ceil` and true division. -/
def calculate_grid_dimensions (num_images : Nat) (max_cols : Nat) : Nat × Nat :=
  if num_images = 0 then (0, 0)
  else if num_images ≤ 2 then (num_images, 1)
  else if num_images ≤ 4 then (2, 2)
  else if num_images ≤ 6 then (3, 2)
  else if num_images ≤ 9 then (3, 3)
  else
    let cols := min max_cols (ceilSqrt num_images)
    let rows := (num_images + cols - 1) / cols
    (cols, rows)

/-- A produced composite: either a single blank/placeholder image or a grid
canvas with its placements `(x, y, resized image)`. -/
inductive Composite where
  | blank (width height : Nat) (color : Nat × Nat × Nat)
  | grid (width height : Nat) (color : Nat × Nat × Nat)
      (cells : List (Nat × Nat × ImageData))
deriving DecidableEq, Repr

/-- The placement computed by the loop body of `create_grid_image` for the
image at index `idx`: cell position, aspect-preserving resize (Python
`int` truncation is `Nat` floor division), and centred offsets. -/
def gridCell (cols cell_width cell_height padding : Nat)
    (idx : Nat) (img : ImageData) : Nat × Nat × ImageData :=
  let row := idx / cols
  let col := idx % cols
  let wide := img.width * cell_height > cell_width * img.height
  let new_width := if wide then cell_width else cell_height * img.width / img.height
  let new_height := if wide then cell_width * img.height / img.width else cell_height
  let x := padding + col * (cell_width + padding) + (cell_width - new_width) / 2
  let y := padding + row * (cell_height + padding) + (cell_height - new_height) / 2
  (x, y, ⟨new_width, new_height⟩)

/-- `create_grid_image(images, cell_width, cell_height, padding, bg_color)`.
The `break` on `idx >= cols * rows` is rendered as `List.take (cols * rows)`
(the loop index increases monotonically). -/
def create_grid_image (images : List ImageData)
    (cell_width cell_height padding : Nat) (bg_color : Nat × Nat × Nat) : Composite :=
  if images.isEmpty then .blank cell_width cell_height bg_color
  else
    let cr := calculate_grid_dimensions images.length 5
    let cols := cr.1
    let rows := cr.2
    let total_width := cols * cell_width + (cols + 1) * padding
    let total_height := rows * cell_height + (rows + 1) * padding
    .grid total_width total_height bg_color
      (((images.take (cols * rows)).enum).map
        (fun p => gridCell cols cell_width cell_height padding p.1 p.2))

/-- The truncation `image_urls[:max_images] if max_images else image_urls`
of `create_composite` (note `0` is falsy in Python). -/
def truncUrls (image_urls : List String) (max_images : Option Nat) : List String :=
  match max_images with
  | none => image_urls
  | some 0 => image_urls
  | some k => image_urls.take k

/-- `fetch_images(urls)`: each url is fetched once through the oracle;
failed fetches are dropped, preserving order (`asyncio.gather` keeps
order, concurrency is not otherwise observable). -/
def fetch_images (fetch : String → Option ImageData) (urls : List String) :
    List ImageData := urls.filterMap fetch

/-- `create_composite(image_urls, cell_width, cell_height, max_images)`:
truncate, fetch, and either produce the gray placeholder sized to a
single cell or the assembled grid. -/
def create_composite (fetch : String → Option ImageData) (image_urls : List String)
    (cell_width cell_height : Nat) (max_images : Option Nat) : Composite :=
  let urls := truncUrls image_urls max_images
  let images := fetch_images fetch urls
  if images.isEmpty then .blank cell_width cell_height (200, 200, 200)
  else create_grid_image images cell_width cell_height 2 (255, 255, 255)

/-- Cell placements of a composite (empty for a placeholder). -/
def Composite.cells : Composite → List (Nat × Nat × ImageData)
  | .blank _ _ _ => []
  | .grid _ _ _ cs => cs

example : calculate_grid_dimensions 1 5 = (1, 1) := by decide
example : calculate_grid_dimensions 4 5 = (2, 2) := by decide
example : calculate_grid_dimensions 7 5 = (3, 3) := by decide
example : calculate_grid_dimensions 20 5 = (5, 4) := by decide
example : calculate_grid_dimensions 36 5 = (5, 8) := by decide

/-! ## JSON values and Python exception model

`json.loads` is external (Python standard library); it is passed in as an
oracle `Str → Except Unit Json` whose `error` case stands for
`json.JSONDecodeError`.  A `Json.obj` models an already-deduplicated dict. -/

inductive Json where
  | null : Json
  | bool (b : Bool) : Json
  | num (q : ℚ) : Json
  | str (s : String) : Json
  | arr (elems : List Json) : Json
  | obj (fields : List (String × Json)) : Json

/-- The Python exceptions that can surface in the embedded fragments. -/
inductive PyExc where
  | jsonDecodeError
  | keyError
  | typeError
  | attributeError
  | validationError
  | upstreamError
deriving DecidableEq, Repr

/-- Exceptions caught by the `except (json.JSONDecodeError, KeyError,
TypeError)` clauses of the `_parse_response` methods. -/
def caughtByParse (e : PyExc) : Bool :=
  match e with
  | .jsonDecodeError => true
  | .keyError => true
  | .typeError => true
  | _ => false

/-- Python `data.get(key, default)`: raises `AttributeError` unless the
value is a dict. -/
def dictGet (data : Json) (key : String) (dflt : Json) : Except PyExc Json :=
  match data with
  | .obj fields => .ok ((fields.lookup key).getD dflt)
  | _ => .error .attributeError

/-- View a JSON value as a number (pydantic float fields; Python
bool-as-number arithmetic is not modelled). -/
def Json.asNum? : Json → Option ℚ
  | .num q => some q
  | _ => none

/-- View a JSON value as a string. -/
def Json.asStr? : Json → Option String
  | .str s => some s
  | _ => none

/-- View a JSON value as a bool. -/
def Json.asBool? : Json → Option Bool
  | .bool b => some b
  | _ => none

/-- View a JSON value as a list of strings (pydantic `list[str]`). -/
def Json.asStrList? : Json → Option (List String)
  | .arr elems =>
    elems.foldr
      (fun j acc =>
        match j.asStr?, acc with
        | some s, some l => some (s :: l)
        | _, _ => none)
      (some [])
  | _ => none

/-- The markdown fence handling shared by the `_parse_response` methods:
prefer a ```json fence, then a bare ``` fence, else the whole text.
`str.find` may return `-1` for an unterminated fence, which the Python
slice then interprets from the end. -/
def stripFences (response : Str) : Str :=
  if containsSub "```json".data response then
    let start := (findSub response "```json".data 0).getD 0 + 7
    let stop := pyFind response "```".data start
    pyStrip (pySlice response start stop)
  else if containsSub "```".data response then
    let start := (findSub response "```".data 0).getD 0 + 3
    let stop := pyFind response "```".data start
    pyStrip (pySlice response start stop)
  else response

/-! ## Score artifacts (src/models/scores.py)

The pydantic models; `mk…` constructors perform the declared field and
range validation, raising `ValidationError` on failure. -/

structure DimensionScore where
  dimension : String
  score : ℚ
  weight : ℚ
  notes : String
deriving DecidableEq, Repr

/-- `DimensionScore(...)` with its `ge=0, le=10` and `ge=0, le=1` bounds. -/
def mkDimensionScore (dimension : String) (score weight : ℚ) (notes : String) :
    Except PyExc DimensionScore :=
  if 0 ≤ score ∧ score ≤ 10 ∧ 0 ≤ weight ∧ weight ≤ 1 then
    .ok ⟨dimension, score, weight, notes⟩
  else .error .validationError

structure PresentFitScore where
  score : ℚ
  passed : Bool
  violations : List String
  dimension_scores : List DimensionScore
  justification : String
  deal_breakers : List String
deriving DecidableEq, Repr

/-- `PresentFitScore(...)` with its `ge=0, le=100` bound and field types. -/
def mkPresentFitScore (score passed violations : Json)
    (dimension_scores : List DimensionScore) (justification deal_breakers : Json) :
    Except PyExc PresentFitScore :=
  match score.asNum?, passed.asBool?, violations.asStrList?,
      justification.asStr?, deal_breakers.asStrList? with
  | some sc, some p, some v, some j, some db =>
    if 0 ≤ sc ∧ sc ≤ 100 then .ok ⟨sc, p, v, dimension_scores, j, db⟩
    else .error .validationError
  | _, _, _, _, _ => .error .validationError

structure RoomAnalysis where
  room_type : String
  aesthetic_quality : ℚ
  materials : List String
  light_quality : String
  condition : String
  notes : String
deriving DecidableEq, Repr

/-- `RoomAnalysis(...)` with its `ge=1, le=10` bound. -/
def mkRoomAnalysis (room_type aesthetic_quality materials light_quality
    condition notes : Json) : Except PyExc RoomAnalysis :=
  match room_type.asStr?, aesthetic_quality.asNum?, materials.asStrList?,
      light_quality.asStr?, condition.asStr?, notes.asStr? with
  | some rt, some q, some m, some lq, some c, some n =>
    if 1 ≤ q ∧ q ≤ 10 then .ok ⟨rt, q, m, lq, c, n⟩ else .error .validationError
  | _, _, _, _, _, _ => .error .validationError

structure VisionAnalysis where
  rooms : List RoomAnalysis
  overall_aesthetic : ℚ
  architectural_style : String
  red_flags : List String
  positive_signals : List String
  renovation_state : String
  raw_description : String
deriving DecidableEq, Repr

/-- `VisionAnalysis(...)` with its `ge=1, le=10` bound
(`raw_description` defaults to `""`). -/
def mkVisionAnalysis (rooms : List RoomAnalysis)
    (overall_aesthetic architectural_style red_flags positive_signals
      renovation_state : Json) : Except PyExc VisionAnalysis :=
  match overall_aesthetic.asNum?, architectural_style.asStr?,
      red_flags.asStrList?, positive_signals.asStrList?,
      renovation_state.asStr? with
  | some oa, some st, some rf, some ps, some rs =>
    if 1 ≤ oa ∧ oa ≤ 10 then .ok ⟨rooms, oa, st, rf, ps, rs, ""⟩
    else .error .validationError
  | _, _, _, _, _ => .error .validationError

structure RenovationIdea where
  area : String
  current_state : String
  proposed_change : String
  impact : String
  difficulty : String
deriving DecidableEq, Repr

/-- `RenovationIdea(...)` (all string fields). -/
def mkRenovationIdea (area current_state proposed_change impact difficulty : Json) :
    Except PyExc RenovationIdea :=
  match area.asStr?, current_state.asStr?, proposed_change.asStr?,
      impact.asStr?, difficulty.asStr? with
  | some a, some cs, some pc, some i, some d => .ok ⟨a, cs, pc, i, d⟩
  | _, _, _, _, _ => .error .validationError

structure PotentialScore where
  score : ℚ
  renovation_ideas : List RenovationIdea
  feasibility : String
  cost_class : String
  risk_notes : List String
  upside_narrative : String
deriving DecidableEq, Repr

/-- `PotentialScore(...)` with its `ge=0, le=100` bound. -/
def mkPotentialScore (score : Json) (renovation_ideas : List RenovationIdea)
    (feasibility cost_class risk_notes upside_narrative : Json) :
    Except PyExc PotentialScore :=
  match score.asNum?, feasibility.asStr?, cost_class.asStr?,
      risk_notes.asStrList?, upside_narrative.asStr? with
  | some sc, some f, some cc, some rn, some un =>
    if 0 ≤ sc ∧ sc ≤ 100 then .ok ⟨sc, renovation_ideas, f, cc, rn, un⟩
    else .error .validationError
  | _, _, _, _, _ => .error .validationError

/-! ## Response extraction (the `_parse_response` methods) -/

/-- Clamp logic for one dimension score in `PresentFitAgent._parse_response`:
`min(10.0, max(0.0, raw if raw <= 10 else raw / 10))`.  A non-numeric raw
value raises `TypeError` at the `<=` comparison, which the enclosing
`except` clause catches. -/
def pyClampScore (raw : Json) : Except PyExc ℚ :=
  match raw.asNum? with
  | some q => .ok (min 10 (max 0 (if q ≤ 10 then q else q / 10)))
  | none => .error .typeError

/-- Clamp logic for one dimension weight:
`min(1.0, max(0.0, ds.get("weight", 0.1)))`. -/
def pyClampWeight (w : Json) : Except PyExc ℚ :=
  match w.asNum? with
  | some q => .ok (min 1 (max 0 q))
  | none => .error .typeError

/-- The loop body over `data.get("dimension_scores", [])` in
`PresentFitAgent._parse_response`. -/
def parseDimEntry (ds : Json) : Except PyExc DimensionScore := do
  let rawScore ← dictGet ds "score" (.num 5)
  let clamped ← pyClampScore rawScore
  let dimJ ← dictGet ds "dimension" (.str "")
  let weightJ ← dictGet ds "weight" (.num (1 / 10))
  let weight ← pyClampWeight weightJ
  let notesJ ← dictGet ds "notes" (.str "")
  match dimJ.asStr?, notesJ.asStr? with
  | some d, some n => mkDimensionScore d clamped weight n
  | _, _ => .error .validationError

/-- Python iteration over the `dimension_scores` value: lists iterate
per entry; non-empty strings and dicts yield non-dict elements whose
`.get` raises `AttributeError`; scalars are not iterable (`TypeError`). -/
def parseDimList (v : Json) : Except PyExc (List DimensionScore) :=
  match v with
  | .arr entries => entries.mapM parseDimEntry
  | .str s => if s.isEmpty then .ok [] else .error .attributeError
  | .obj fields => if fields.isEmpty then .ok [] else .error .attributeError
  | _ => .error .typeError

/-- The `try` body of `PresentFitAgent._parse_response` after `json.loads`. -/
def presentFitBody (data : Json) : Except PyExc PresentFitScore := do
  let dsJ ← dictGet data "dimension_scores" (.arr [])
  let dims ← parseDimList dsJ
  let scoreJ ← dictGet data "score" (.num 50)
  let passedJ ← dictGet data "passed" (.bool true)
  let violationsJ ← dictGet data "violations" (.arr [])
  let justificationJ ← dictGet data "justification" (.str "")
  let dealBreakersJ ← dictGet data "deal_breakers" (.arr [])
  mkPresentFitScore scoreJ passedJ violationsJ dims justificationJ dealBreakersJ

/-- The fallback `PresentFitScore` built in the `except` clause; `r` is the
(possibly fence-stripped) response text. -/
def presentFitFallback (r : Str) : PresentFitScore :=
  ⟨50, true, [], [], "Scoring parse error. Raw: " ++ String.mk (r.take 300), []⟩

/-- `PresentFitAgent._parse_response` (the unused `taste` parameter is
dropped): strip fences, parse, and convert the caught exceptions to the
fallback artifact.  Exceptions outside the `except` clause propagate. -/
def parse_response_present_fit (loads : Str → Except Unit Json)
    (response : Str) : Except PyExc PresentFitScore :=
  let r := stripFences response
  match loads r with
  | .error _ => .ok (presentFitFallback r)
  | .ok data =>
    match presentFitBody data with
    | .ok s => .ok s
    | .error e => if caughtByParse e then .ok (presentFitFallback r) else .error e

/-- The loop body over `data.get("rooms", [])` in
`VisionAgent._parse_response`. -/
def parseRoomEntry (rd : Json) : Except PyExc RoomAnalysis := do
  let rt ← dictGet rd "room_type" (.str "unknown")
  let q ← dictGet rd "aesthetic_quality" (.num 5)
  let m ← dictGet rd "materials" (.arr [])
  let lq ← dictGet rd "light_quality" (.str "")
  let c ← dictGet rd "condition" (.str "")
  let n ← dictGet rd "notes" (.str "")
  mkRoomAnalysis rt q m lq c n

/-- Python iteration over the `rooms` value (same shape as `parseDimList`). -/
def parseRoomList (v : Json) : Except PyExc (List RoomAnalysis) :=
  match v with
  | .arr entries => entries.mapM parseRoomEntry
  | .str s => if s.isEmpty then .ok [] else .error .attributeError
  | .obj fields => if fields.isEmpty then .ok [] else .error .attributeError
  | _ => .error .typeError

/-- The `try` body of `VisionAgent._parse_response` after `json.loads`. -/
def visionBody (data : Json) : Except PyExc VisionAnalysis := do
  let roomsJ ← dictGet data "rooms" (.arr [])
  let rooms ← parseRoomList roomsJ
  let oa ← dictGet data "overall_aesthetic" (.num 5)
  let style ← dictGet data "architectural_style" (.str "")
  let rf ← dictGet data "red_flags" (.arr [])
  let ps ← dictGet data "positive_signals" (.arr [])
  let rs ← dictGet data "renovation_state" (.str "")
  mkVisionAnalysis rooms oa style rf ps rs

/-- The fallback `VisionAnalysis` of the `except` clause. -/
def visionFallback (r : Str) : VisionAnalysis :=
  ⟨[], 5, "", [], [], "", "Parse error. Raw response: " ++ String.mk (r.take 500)⟩

/-- `VisionAgent._parse_response`. -/
def parse_response_vision (loads : Str → Except Unit Json)
    (response : Str) : Except PyExc VisionAnalysis :=
  let r := stripFences response
  match loads r with
  | .error _ => .ok (visionFallback r)
  | .ok data =>
    match visionBody data with
    | .ok a => .ok a
    | .error e => if caughtByParse e then .ok (visionFallback r) else .error e

/-- The loop body over `data.get("renovation_ideas", [])` in
`PotentialAgent._parse_response`. -/
def parseIdeaEntry (idea : Json) : Except PyExc RenovationIdea := do
  let a ← dictGet idea "area" (.str "")
  let cs ← dictGet idea "current_state" (.str "")
  let pc ← dictGet idea "proposed_change" (.str "")
  let i ← dictGet idea "impact" (.str "")
  let d ← dictGet idea "difficulty" (.str "medium")
  mkRenovationIdea a cs pc i d

/-- Python iteration over the `renovation_ideas` value. -/
def parseIdeaList (v : Json) : Except PyExc (List RenovationIdea) :=
  match v with
  | .arr entries => entries.mapM parseIdeaEntry
  | .str s => if s.isEmpty then .ok [] else .error .attributeError
  | .obj fields => if fields.isEmpty then .ok [] else .error .attributeError
  | _ => .error .typeError

/-- The `try` body of `PotentialAgent._parse_response` after `json.loads`. -/
def potentialBody (data : Json) : Except PyExc PotentialScore := do
  let ideasJ ← dictGet data "renovation_ideas" (.arr [])
  let ideas ← parseIdeaList ideasJ
  let scoreJ ← dictGet data "score" (.num 50)
  let f ← dictGet data "feasibility" (.str "medium")
  let cc ← dictGet data "cost_class" (.str "$50-100k")
  let rn ← dictGet data "risk_notes" (.arr [])
  let un ← dictGet data "upside_narrative" (.str "")
  mkPotentialScore scoreJ ideas f cc rn un

/-- The fallback `PotentialScore` of the `except` clause. -/
def potentialFallback (r : Str) : PotentialScore :=
  ⟨50, [], "unknown", "unknown", [], "Parse error. Raw: " ++ String.mk (r.take 300)⟩

/-- `PotentialAgent._parse_response`. -/
def parse_response_potential (loads : Str → Except Unit Json)
    (response : Str) : Except PyExc PotentialScore :=
  let r := stripFences response
  match loads r with
  | .error _ => .ok (potentialFallback r)
  | .ok data =>
    match potentialBody data with
    | .ok s => .ok s
    | .error e => if caughtByParse e then .ok (potentialFallback r) else .error e

/-- A small stand-in for `json.loads` covering the concrete inputs used in
the theorems below: the empty JSON object, the empty JSON array, and
nothing else. -/
def loadsStub : Str → Except Unit Json :=
  fun s =>
    if s = "{}".data then .ok (.obj [])
    else if s = "[]".data then .ok (.arr [])
    else .error ()

instance (ε α : Type) [DecidableEq ε] [DecidableEq α] : DecidableEq (Except ε α) :=
  fun a b =>
    match a, b with
    | .ok x, .ok y => decidable_of_iff (x = y) (by simp)
    | .error x, .error y => decidable_of_iff (x = y) (by simp)
    | .ok _, .error _ => isFalse (by simp)
    | .error _, .ok _ => isFalse (by simp)

example : parse_response_present_fit loadsStub "[]".data = .error .attributeError := by decide
example : parse_response_vision loadsStub "[]".data = .error .attributeError := by decide
example :
    parse_response_present_fit loadsStub "{}".data = .ok ⟨50, true, [], [], "", []⟩ := by decide
example :
    parse_response_present_fit loadsStub "no json here".data =
      .ok (presentFitFallback "no json here".data) := by decide

/-! ## House record and JSON store (src/models/house.py, src/storage/json_store.py)

Only the fields the pipeline reads or writes are carried; listing
metadata that is used solely to build prompt text (price, features,
description, ...) is summarised by the model-response oracles.  The
taste document always loads or is lazily created, and is not otherwise
observed, so it is not part of the state.  Store I/O is assumed to
succeed (the spec treats I/O failure as fatal). -/

structure House where
  id : String
  address : String
  image_urls : List String
  vision_analysis : Option VisionAnalysis
  present_fit_score : Option PresentFitScore
  potential_score : Option PotentialScore
  brief : String
  ingested_at : Nat
  scored_at : Option Nat
deriving DecidableEq, Repr

/-- The on-disk store: one record per house id (`data/houses/{id}.json`). -/
abbrev Store := List (String × House)

/-- `JsonStore.load_house`. -/
def load_house (store : Store) (house_id : String) : Option House :=
  (store.lookup house_id).map id

/-- `JsonStore.save_house`: full overwrite of the per-id record. -/
def save_house (store : Store) (h : House) : Store :=
  if (store.lookup h.id).isSome then
    store.map (fun p => if p.1 = h.id then (h.id, h) else p)
  else store ++ [(h.id, h)]

/-- Stable descending insertion by ingestion time: the new record goes
after every record ingested no earlier. -/
def insertDescIngested (h : House) : List House → List House
  | [] => [h]
  | x :: xs =>
    if h.ingested_at ≤ x.ingested_at then x :: insertDescIngested h xs
    else h :: x :: xs

/-- `JsonStore.list_houses`: all records, sorted by ingestion time
descending (Python `sorted(..., reverse=True)` is a stable sort, rendered
here as a stable insertion sort). -/
def list_houses (store : Store) : List House :=
  (store.map Prod.snd).foldl (fun acc h => insertDescIngested h acc) []

/-- `JsonStore.house_exists`: duplicate detection by normalized address. -/
def house_exists (store : Store) (address : String) : Bool :=
  (list_houses store).any (fun h => normalize_address h.address = normalize_address address)

/-- `JsonStore.bulk_save_houses`: save a batch, skipping any whose
normalized address already exists; returns `(saved, skipped)`. -/
def bulk_save_houses (store : Store) : List House → (Nat × Nat) × Store
  | [] => ((0, 0), store)
  | h :: rest =>
    if house_exists store h.address then
      let ((saved, skipped), store') := bulk_save_houses store rest
      ((saved, skipped + 1), store')
    else
      let ((saved, skipped), store') := bulk_save_houses (save_house store h) rest
      ((saved + 1, skipped), store')

/-- `JsonStore.get_unscored_houses`. -/
def get_unscored_houses (store : Store) : List House :=
  (list_houses store).filter (fun h => h.present_fit_score.isNone)

/-! ## Agents and orchestrator (src/agents/)

External effects are oracles in `Env`: per-house model responses (an
`error` is a raised exception from the model call) and the image fetcher
consumed by `create_composite_sync`.  Each agent returns the updated
store together with its Python return value, or the exception it
raised. -/

structure Env where
  loads : Str → Except Unit Json
  fetch : String → Option ImageData
  visionResp : String → Except PyExc String
  fitResp : String → Except PyExc String
  potResp : String → Except PyExc String
  briefResp : String → Except PyExc String
  now : Nat

/-- `VisionAgent.analyze(house_id)`: placeholder analysis when the house
has no images, otherwise composite the images, call the vision model and
parse; the parsed analysis (with `raw_description` set to the raw
response) is saved before returning. -/
def vision_analyze (env : Env) (store : Store) (house_id : String) :
    Store × Except PyExc (Option VisionAnalysis) :=
  match load_house store house_id with
  | none => (store, .ok none)
  | some house =>
    if house.image_urls.isEmpty then
      let analysis : VisionAnalysis := ⟨[], 5, "", [], [], "", "No images available for analysis"⟩
      (save_house store { house with vision_analysis := some analysis }, .ok (some analysis))
    else
      let _composite := create_composite env.fetch house.image_urls 400 300 (some 36)
      match env.visionResp house_id with
      | .error e => (store, .error e)
      | .ok response =>
        match parse_response_vision env.loads response.data with
        | .error e => (store, .error e)
        | .ok a0 =>
          let analysis := { a0 with raw_description := response }
          (save_house store { house with vision_analysis := some analysis }, .ok (some analysis))

/-- `PresentFitAgent.score(house_id)`: requires the vision analysis;
parses the scoring model response and saves the result with `scored_at`. -/
def present_fit_run (env : Env) (store : Store) (house_id : String) :
    Store × Except PyExc (Option PresentFitScore) :=
  match load_house store house_id with
  | none => (store, .ok none)
  | some house =>
    if house.vision_analysis.isNone then (store, .ok none)
    else
      match env.fitResp house_id with
      | .error e => (store, .error e)
      | .ok response =>
        match parse_response_present_fit env.loads response.data with
        | .error e => (store, .error e)
        | .ok score =>
          (save_house store
            { house with present_fit_score := some score, scored_at := some env.now },
           .ok (some score))

/-- `PotentialAgent.score(house_id)`. -/
def potential_run (env : Env) (store : Store) (house_id : String) :
    Store × Except PyExc (Option PotentialScore) :=
  match load_house store house_id with
  | none => (store, .ok none)
  | some house =>
    if house.vision_analysis.isNone then (store, .ok none)
    else
      match env.potResp house_id with
      | .error e => (store, .error e)
      | .ok response =>
        match parse_response_potential env.loads response.data with
        | .error e => (store, .error e)
        | .ok score =>
          (save_house store { house with potential_score := some score }, .ok (some score))

/-- `BriefAgent.generate(house_id)`: saves the raw model response as the
brief (no parsing, no vision precondition). -/
def brief_run (env : Env) (store : Store) (house_id : String) :
    Store × Except PyExc (Option String) :=
  match load_house store house_id with
  | none => (store, .ok none)
  | some house =>
    match env.briefResp house_id with
    | .error e => (store, .error e)
    | .ok response =>
      (save_house store { house with brief := response }, .ok (some response))

/-- `Orchestrator.score_house`: the four-stage pipeline.  Stage
exceptions are caught per stage; a stage-1 or stage-2 exception (or a
falsy stage-2 result) aborts with `false`, stage-3 and stage-4 outcomes
are ignored.  A missing house returns `false`. -/
def score_house (env : Env) (store : Store) (house_id : String) : Bool × Store :=
  match load_house store house_id with
  | none => (false, store)
  | some _ =>
    match vision_analyze env store house_id with
    | (s1, .error _) => (false, s1)
    | (s1, .ok _) =>
      match present_fit_run env s1 house_id with
      | (s2, .error _) => (false, s2)
      | (s2, .ok none) => (false, s2)
      | (s2, .ok (some _)) =>
        let s3 := (potential_run env s2 house_id).1
        let s4 := (brief_run env s3 house_id).1
        (true, s4)

/-- Python dict insertion `results[house_id] = ok` (update in place,
append if new). -/
def dictInsert (d : List (String × Bool)) (k : String) (v : Bool) : List (String × Bool) :=
  if (d.lookup k).isSome then d.map (fun p => if p.1 = k then (k, v) else p)
  else d ++ [(k, v)]

/-- The scoring loop of `Orchestrator.batch_score`. -/
def batchAux (env : Env) : Store → List (String × Bool) → List String →
    List (String × Bool) × Store
  | store, results, [] => (results, store)
  | store, results, house_id :: rest =>
    let (ok, store') := score_house env store house_id
    batchAux env store' (dictInsert results house_id ok) rest

/-- `Orchestrator.batch_score(house_ids)`: defaulting to all unscored
houses when `house_ids is None`, then scoring each id in turn. -/
def batch_score (env : Env) (store : Store) (house_ids : Option (List String)) :
    List (String × Bool) × Store :=
  let ids :=
    match house_ids with
    | none => (get_unscored_houses store).map House.id
    | some l => l
  batchAux env store [] ids

/-- A concrete environment: both model-backed scoring calls answer with an
empty JSON object, the secondary-scoring call raises, the brief call
answers plain text. -/
def envA : Env :=
  ⟨loadsStub, fun _ => none, fun _ => .ok "{}", fun _ => .ok "{}",
   fun _ => .error .upstreamError, fun _ => .ok "the brief", 7⟩

/-- A concrete unscored house with one image. -/
def houseA : House := ⟨"h", "1 Elm St", ["u"], none, none, none, "", 0, none⟩

example : (score_house envA [("h", houseA)] "h").1 = true := by decide
example :
    ((score_house envA [("h", houseA)] "h").2.lookup "h").map House.potential_score
      = some none := by decide
example :
    ((score_house envA [("h", houseA)] "h").2.lookup "h").map
      (fun h => h.vision_analysis.isSome) = some true := by decide
example :
    ((score_house envA [("h", houseA)] "h").2.lookup "h").map
      (fun h => h.present_fit_score.isSome) = some true := by decide
example :
    ((score_house envA [("h", houseA)] "h").2.lookup "h").map House.brief
      = some "the brief" := by decide

/-! ## Helper lemmas -/

theorem exceptBind_ok {ε α β : Type} {x : Except ε α} {f : α → Except ε β} {b : β}
    (h : x >>= f = .ok b) : ∃ a, x = .ok a ∧ f a = .ok b := by
  cases x with
  | error e => simp [Bind.bind, Except.bind] at h
  | ok a => exact ⟨a, rfl, by simpa [Bind.bind, Except.bind] using h⟩

theorem mkDimensionScore_ok {dim notes : String} {sc w : ℚ} {d : DimensionScore}
    (h : mkDimensionScore dim sc w notes = .ok d) :
    0 ≤ d.score ∧ d.score ≤ 10 ∧ 0 ≤ d.weight ∧ d.weight ≤ 1 := by
  unfold mkDimensionScore at h
  by_cases hc : 0 ≤ sc ∧ sc ≤ 10 ∧ 0 ≤ w ∧ w ≤ 1
  · rw [if_pos hc] at h
    cases h
    exact hc
  · rw [if_neg hc] at h
    exact absurd h (by simp)

/-- C1: every dimension-score entry parsed by the primary-scoring extractor
has its score in [0,10] and its weight in [0,1]; numeric score inputs at
most 10 pass through clamped only at the edges (negative inputs become 0),
score inputs above 10 are divided by 10 and then clamped, and every
numeric weight input is clamped into [0,1]. -/
theorem C1_dimension_score_clamping :
    (∀ ds d, parseDimEntry ds = .ok d →
      0 ≤ d.score ∧ d.score ≤ 10 ∧ 0 ≤ d.weight ∧ d.weight ≤ 1) ∧
    (∀ q : ℚ, 0 ≤ q → q ≤ 10 → pyClampScore (.num q) = .ok q) ∧
    (∀ q : ℚ, q < 0 → pyClampScore (.num q) = .ok 0) ∧
    (∀ q : ℚ, 10 < q → pyClampScore (.num q) = .ok (min 10 (q / 10))) ∧
    (∀ q : ℚ, ∃ w, pyClampWeight (.num q) = .ok w ∧ 0 ≤ w ∧ w ≤ 1) := by
  refine ⟨?_, ?_, ?_, ?_, ?_⟩
  · intro ds d h
    unfold parseDimEntry at h
    obtain ⟨rawScore, h1, h⟩ := exceptBind_ok h
    obtain ⟨clamped, h2, h⟩ := exceptBind_ok h
    obtain ⟨dimJ, h3, h⟩ := exceptBind_ok h
    obtain ⟨weightJ, h4, h⟩ := exceptBind_ok h
    obtain ⟨weight, h5, h⟩ := exceptBind_ok h
    obtain ⟨notesJ, h6, h⟩ := exceptBind_ok h
    rcases hd : dimJ.asStr? with _ | dstr <;> rcases hn : notesJ.asStr? with _ | nstr <;>
        rw [hd, hn] at h
    · exact absurd h (by simp)
    · exact absurd h (by simp)
    · exact absurd h (by simp)
    · exact mkDimensionScore_ok h
  · intro q h0 h10
    simp only [pyClampScore, Json.asNum?, if_pos h10]
    rw [max_eq_right h0, min_eq_right h10]
  · intro q hq
    have h10 : q ≤ 10 := le_trans (le_of_lt hq) (by norm_num)
    simp only [pyClampScore, Json.asNum?, if_pos h10]
    rw [max_eq_left (le_of_lt hq), min_eq_right (by norm_num : (0 : ℚ) ≤ 10)]
  · intro q hq
    have hn : ¬ q ≤ 10 := not_le.mpr hq
    have hpos : (0 : ℚ) ≤ q / 10 := by positivity
    simp only [pyClampScore, Json.asNum?, if_neg hn]
    rw [max_eq_right hpos]
  · intro q
    refine ⟨min 1 (max 0 q), rfl, ?_, min_le_left _ _⟩
    exact le_min (by norm_num) (le_max_left _ _)

/-- Witness for `C1_dimension_score_clamping` at concrete inputs: in-range
7 passes through, -3 clamps to 0, 85 is rescaled, and the default entry
parsed from an empty dict is in bounds. -/
theorem C1_dimension_score_clamping_witness :
    (pyClampScore (.num 7) = .ok 7) ∧
    (pyClampScore (.num (-3)) = .ok 0) ∧
    (pyClampScore (.num 85) = .ok (min 10 ((85 : ℚ) / 10))) ∧
    (0 ≤ (⟨"", 5, 1 / 10, ""⟩ : DimensionScore).score ∧
      (⟨"", 5, 1 / 10, ""⟩ : DimensionScore).score ≤ 10 ∧
      0 ≤ (⟨"", 5, 1 / 10, ""⟩ : DimensionScore).weight ∧
      (⟨"", 5, 1 / 10, ""⟩ : DimensionScore).weight ≤ 1) :=
  ⟨C1_dimension_score_clamping.2.1 7 (by norm_num) (by norm_num),
   C1_dimension_score_clamping.2.2.1 (-3) (by norm_num),
   C1_dimension_score_clamping.2.2.2.1 85 (by norm_num),
   C1_dimension_score_clamping.1 (.obj []) ⟨"", 5, 1 / 10, ""⟩
    (by norm_num [parseDimEntry, dictGet, Json.asNum?, Json.asStr?, pyClampScore,
      pyClampWeight, mkDimensionScore, Bind.bind, Except.bind, List.lookup])⟩

/-- C2: the claim that the response extractors never raise is false as
stated and contradicts the intent evident in the code (the `except` clauses are
meant to absorb any malformed model output): on the valid JSON text
`"[]"` the parsed value is a list, `data.get` raises `AttributeError`,
and that exception is not caught, for both the primary-scoring and the
vision extractor. -/
theorem C2_extractor_raises_on_json_array :
    loadsStub "[]".data = .ok (.arr []) ∧
    parse_response_present_fit loadsStub "[]".data = .error .attributeError ∧
    parse_response_vision loadsStub "[]".data = .error .attributeError :=
  ⟨rfl, by decide, by decide⟩

/-- The exact ceiling-division identity: `(n + c - 1) / c` in `Nat` is
`⌈n / c⌉` over the rationals, justifying the embedding of
`math.ceil(num_images / cols)`. -/
theorem ceil_div_nat (n c : Nat) (hc : 0 < c) :
    ((n + c - 1) / c : Nat) = ⌈(n : ℚ) / (c : ℚ)⌉₊ := by
  rcases Nat.eq_zero_or_pos n with hn | hn
  · subst hn
    rw [Nat.div_eq_of_lt (by omega)]
    simp
  · set m := (n + c - 1) / c with hm
    have hdm := Nat.div_add_mod (n + c - 1) c
    have hmod : (n + c - 1) % c < c := Nat.mod_lt _ hc
    have hcm : c * ((n + c - 1) / c) = m * c := by rw [← hm, Nat.mul_comm]
    rw [hcm] at hdm
    have hsub : (m - 1) * c = m * c - c := by rw [Nat.sub_one_mul]
    have hm1 : 1 ≤ m := by
      rw [hm, Nat.le_div_iff_mul_le hc]
      omega
    have hub : n ≤ m * c := by
      set k := m * c with hk
      omega
    have hlbn : (m - 1) * c < n := by
      rw [hsub]
      set k := m * c with hk
      omega
    rw [eq_comm, Nat.ceil_eq_iff (by omega : m ≠ 0)]
    constructor
    · rw [lt_div_iff₀ (by positivity : (0 : ℚ) < (c : ℚ))]
      exact_mod_cast hlbn
    · rw [div_le_iff₀ (by positivity : (0 : ℚ) < (c : ℚ))]
      exact_mod_cast hub

/-- The grid-dimension derivation exactly as the specification words it
(`maxCols` fixed at 5). -/
def gridDimsSpec (n : Nat) : Nat × Nat :=
  if n ≤ 2 then (n, 1)
  else if n ≤ 4 then (2, 2)
  else if n ≤ 6 then (3, 2)
  else if n ≤ 9 then (3, 3)
  else
    let cols := min 5 (ceilSqrt n)
    (cols, (n + cols - 1) / cols)

/-- C7: for every image count n >= 1 the grid-dimension function returns
(n,1) for n <= 2, (2,2) for n <= 4, (3,2) for n <= 6, (3,3) for n <= 9,
and otherwise cols = min(5, ceil(sqrt n)), rows = ceil(n / cols); in
particular 1 image gives (1,1), 4 gives (2,2), 7 gives (3,3) and 20
gives (5,4). -/
theorem C7_grid_dimensions :
    (∀ n, 1 ≤ n → calculate_grid_dimensions n 5 = gridDimsSpec n) ∧
    calculate_grid_dimensions 1 5 = (1, 1) ∧
    calculate_grid_dimensions 4 5 = (2, 2) ∧
    calculate_grid_dimensions 7 5 = (3, 3) ∧
    calculate_grid_dimensions 20 5 = (5, 4) := by
  refine ⟨?_, by decide, by decide, by decide, by decide⟩
  intro n hn
  unfold calculate_grid_dimensions gridDimsSpec
  rw [if_neg (by omega : ¬ n = 0)]

/-- Witness for `C7_grid_dimensions` at n = 7. -/
theorem C7_grid_dimensions_witness :
    1 ≤ 7 ∧ calculate_grid_dimensions 7 5 = gridDimsSpec 7 :=
  ⟨by decide, C7_grid_dimensions.1 7 (by decide)⟩

/-- Capacity of the computed grid: for every positive image count the
grid has at least as many cells as images. -/
theorem grid_capacity (n : Nat) (hn : 1 ≤ n) :
    n ≤ (calculate_grid_dimensions n 5).1 * (calculate_grid_dimensions n 5).2 := by
  by_cases h9 : n ≤ 9
  · interval_cases n <;> decide
  · have hkey : ∀ c, 0 < c → n ≤ c * ((n + c - 1) / c) := by
      intro c hc
      have hdm := Nat.div_add_mod (n + c - 1) c
      have hmod : (n + c - 1) % c < c := Nat.mod_lt _ hc
      set k := c * ((n + c - 1) / c) with hk
      omega
    have hsq : 0 < ceilSqrt n := by
      rcases Nat.eq_zero_or_pos (ceilSqrt n) with h0 | hpos
      · have := ceilSqrt_le_sq n
        rw [h0] at this
        omega
      · exact hpos
    unfold calculate_grid_dimensions
    rw [if_neg (by omega : ¬ n = 0), if_neg (by omega : ¬ n ≤ 2),
      if_neg (by omega : ¬ n ≤ 4), if_neg (by omega : ¬ n ≤ 6), if_neg h9]
    exact hkey (min 5 (ceilSqrt n)) (lt_min (by omega) hsq)

/-- C10: the grid always has capacity for every image (`cols * rows >= n`
for n >= 1), hence the capacity-overflow break in the placement loop of
`create_grid_image` is unreachable: every successfully fetched image is
placed, in its original relative order. -/
theorem C10_grid_placement_complete :
    (∀ n, 1 ≤ n →
      n ≤ (calculate_grid_dimensions n 5).1 * (calculate_grid_dimensions n 5).2) ∧
    (∀ (images : List ImageData) (cw ch pad : Nat) (bg : Nat × Nat × Nat),
      images ≠ [] →
      (create_grid_image images cw ch pad bg).cells =
        images.enum.map
          (fun p => gridCell (calculate_grid_dimensions images.length 5).1 cw ch pad p.1 p.2) ∧
      (create_grid_image images cw ch pad bg).cells.length = images.length) := by
  refine ⟨grid_capacity, ?_⟩
  intro images cw ch pad bg hne
  have hlen : 1 ≤ images.length := by
    cases images with
    | nil => exact absurd rfl hne
    | cons a l => simp
  have hcap := grid_capacity images.length hlen
  have htake :
      images.take ((calculate_grid_dimensions images.length 5).1 *
        (calculate_grid_dimensions images.length 5).2) = images :=
    List.take_of_length_le hcap
  unfold create_grid_image
  rw [if_neg (by simpa [List.isEmpty_iff] using hne)]
  simp only [Composite.cells, htake]
  constructor
  · trivial
  · simp

/-- Witness for `C10_grid_placement_complete`: 20 images fit in the 5 by 4
grid, and a concrete three-image grid places all three in order. -/
theorem C10_grid_placement_complete_witness :
    20 ≤ (calculate_grid_dimensions 20 5).1 * (calculate_grid_dimensions 20 5).2 ∧
    (create_grid_image [⟨4, 3⟩, ⟨8, 3⟩, ⟨4, 9⟩] 4 3 0 (0, 0, 0)).cells.length = 3 :=
  ⟨C10_grid_placement_complete.1 20 (by decide),
   ((C10_grid_placement_complete.2 [⟨4, 3⟩, ⟨8, 3⟩, ⟨4, 9⟩] 4 3 0 (0, 0, 0)
      (by decide)).2)⟩

/-- C8: individual fetch failures are swallowed, the failed image is
dropped (the grid is built from exactly the successful fetches, in
order) without failing the batch, and if every fetch fails or the list
is empty the composite is the single neutral-gray placeholder at exactly
the dimensions of a single cell; the operation is total, never an error. -/
theorem C8_fetch_failures_swallowed :
    (∀ (fetch : String → Option ImageData) (urls : List String) (cw ch : Nat)
        (mi : Option Nat),
      (∀ u ∈ truncUrls urls mi, fetch u = none) →
      create_composite fetch urls cw ch mi = .blank cw ch (200, 200, 200)) ∧
    (∀ (fetch : String → Option ImageData) (urls : List String) (cw ch : Nat)
        (mi : Option Nat),
      fetch_images fetch (truncUrls urls mi) ≠ [] →
      create_composite fetch urls cw ch mi =
        create_grid_image (fetch_images fetch (truncUrls urls mi)) cw ch 2
          (255, 255, 255)) := by
  constructor
  · intro fetch urls cw ch mi hall
    have hnil : fetch_images fetch (truncUrls urls mi) = [] := by
      unfold fetch_images
      exact List.filterMap_eq_nil_iff.mpr hall
    simp [create_composite, hnil]
  · intro fetch urls cw ch mi hne
    have hf : (fetch_images fetch (truncUrls urls mi)).isEmpty = false := by
      simpa [List.isEmpty_iff] using hne
    simp [create_composite, hf]

/-- Witness for `C8_fetch_failures_swallowed`: with every fetch failing,
two urls produce the gray 400 by 300 placeholder; with one of two
fetches failing, the grid is built from the single fetched image. -/
theorem C8_fetch_failures_swallowed_witness :
    create_composite (fun _ => none) ["u1", "u2"] 400 300 none =
      .blank 400 300 (200, 200, 200) ∧
    create_composite (fun u => if u = "u1" then some ⟨40, 30⟩ else none)
        ["u1", "u2"] 400 300 none =
      create_grid_image [⟨40, 30⟩] 400 300 2 (255, 255, 255) :=
  ⟨C8_fetch_failures_swallowed.1 (fun _ => none) ["u1", "u2"] 400 300 none
    (by intro u _; rfl),
   C8_fetch_failures_swallowed.2 (fun u => if u = "u1" then some ⟨40, 30⟩ else none)
    ["u1", "u2"] 400 300 none (by decide)⟩

/-- C3: for every existing house id the pipeline run returns true exactly
when stage 1 (visual analysis) raised no exception and stage 2 (primary
scoring) produced a score; concretely, in the environment `envA` whose
secondary-scoring call raises while stages 1, 2 and 4 succeed, the run
returns true with the secondary-score slot absent and the analysis,
primary-score and brief artifacts present. -/
theorem C3_run_success_iff_required_stages :
    (∀ (env : Env) (store : Store) (house_id : String) (house : House),
      load_house store house_id = some house →
      ((score_house env store house_id).1 = true ↔
        (∃ v, (vision_analyze env store house_id).2 = .ok v) ∧
        (∃ sc, (present_fit_run env (vision_analyze env store house_id).1 house_id).2 =
          .ok (some sc)))) ∧
    envA.potResp "h" = .error .upstreamError ∧
    (score_house envA [("h", houseA)] "h").1 = true ∧
    ((score_house envA [("h", houseA)] "h").2.lookup "h").map House.potential_score
      = some none ∧
    ((score_house envA [("h", houseA)] "h").2.lookup "h").map
      (fun h => h.vision_analysis.isSome) = some true ∧
    ((score_house envA [("h", houseA)] "h").2.lookup "h").map
      (fun h => h.present_fit_score.isSome) = some true ∧
    ((score_house envA [("h", houseA)] "h").2.lookup "h").map House.brief
      = some "the brief" := by
  refine ⟨?_, rfl, by decide, by decide, by decide, by decide, by decide⟩
  intro env store house_id house hl
  unfold score_house
  simp only [hl]
  rcases hv : vision_analyze env store house_id with ⟨s1, r1⟩
  cases r1 with
  | error e => simp [hv]
  | ok vOpt =>
    simp only [hv]
    rcases hf : present_fit_run env s1 house_id with ⟨s2, r2⟩
    cases r2 with
    | error e => simp [hf]
    | ok scOpt =>
      cases scOpt with
      | none => simp [hf]
      | some sc => simp [hf]

/-- Witness for `C3_run_success_iff_required_stages`: in the concrete
scenario both required stages completed. -/
theorem C3_run_success_iff_required_stages_witness :
    (∃ v, (vision_analyze envA [("h", houseA)] "h").2 = .ok v) ∧
    (∃ sc, (present_fit_run envA (vision_analyze envA [("h", houseA)] "h").1 "h").2 =
      .ok (some sc)) :=
  (C3_run_success_iff_required_stages.1 envA [("h", houseA)] "h" houseA rfl).mp
    (by decide)

/-- C9: if every enrichment slot of an existing house is unset and the
visual-analysis model call raises, the run reports failure, the store is
untouched, and the primary-score, secondary-score and brief slots remain
unset. -/
theorem C9_required_failure_leaves_slots_unset
    (env : Env) (store : Store) (house_id : String) (house : House) (e : PyExc)
    (hl : load_house store house_id = some house)
    (himg : house.image_urls ≠ [])
    (hva : house.vision_analysis = none)
    (hpf : house.present_fit_score = none)
    (hpot : house.potential_score = none)
    (hbrief : house.brief = "")
    (hraise : env.visionResp house_id = .error e) :
    score_house env store house_id = (false, store) ∧
    load_house (score_house env store house_id).2 house_id = some house ∧
    house.vision_analysis = none ∧ house.present_fit_score = none ∧
    house.potential_score = none ∧ house.brief = "" := by
  have hv : vision_analyze env store house_id = (store, .error e) := by
    unfold vision_analyze
    simp only [hl]
    rw [if_neg (by simpa [List.isEmpty_iff] using himg)]
    simp only [hraise]
  have hmain : score_house env store house_id = (false, store) := by
    unfold score_house
    simp only [hl, hv]
  refine ⟨hmain, ?_, hva, hpf, hpot, hbrief⟩
  rw [hmain]
  exact hl

/-- An environment whose visual-analysis model call raises. -/
def envB : Env :=
  ⟨loadsStub, fun _ => none, fun _ => .error .upstreamError, fun _ => .ok "{}",
   fun _ => .ok "{}", fun _ => .ok "b", 0⟩

/-- Witness for `C9_required_failure_leaves_slots_unset` at the concrete
house and raising environment. -/
theorem C9_required_failure_leaves_slots_unset_witness :
    score_house envB [("h", houseA)] "h" = (false, [("h", houseA)]) ∧
    load_house (score_house envB [("h", houseA)] "h").2 "h" = some houseA ∧
    houseA.vision_analysis = none ∧ houseA.present_fit_score = none ∧
    houseA.potential_score = none ∧ houseA.brief = "" :=
  C9_required_failure_leaves_slots_unset envB [("h", houseA)] "h" houseA
    .upstreamError rfl (by decide) rfl rfl rfl rfl rfl

theorem lookup_mem {β : Type} {l : List (String × β)} {k : String} {v : β}
    (h : l.lookup k = some v) : (k, v) ∈ l := by
  induction l with
  | nil => simp [List.lookup] at h
  | cons p t ih =>
    rcases p with ⟨k0, v0⟩
    simp only [List.lookup] at h
    split at h
    · next heq =>
      cases h
      have : k = k0 := (beq_iff_eq.mp heq)
      subst this
      exact List.mem_cons_self _ _
    · exact List.mem_cons_of_mem _ (ih h)

theorem lookup_append_none {β : Type} {l1 : List (String × β)} (l2 : List (String × β))
    (k : String) (h : l1.lookup k = none) : (l1 ++ l2).lookup k = l2.lookup k := by
  induction l1 with
  | nil => simp
  | cons p t ih =>
    rcases p with ⟨k0, v0⟩
    cases hbeq : k == k0 with
    | true => simp [List.lookup, hbeq] at h
    | false =>
      simp only [List.lookup, hbeq] at h
      simp only [List.cons_append, List.lookup, hbeq]
      exact ih h

/-- Key membership after a Python dict insertion. -/
theorem dictInsert_mem_keys (d : List (String × Bool)) (k' k : String) (b : Bool) :
    (∃ v, (k, v) ∈ dictInsert d k' b) ↔ (k = k' ∨ ∃ v, (k, v) ∈ d) := by
  unfold dictInsert
  by_cases hs : (d.lookup k').isSome
  · rw [if_pos hs]
    constructor
    · rintro ⟨v, hv⟩
      rcases List.mem_map.mp hv with ⟨⟨k0, v0⟩, hp, hf⟩
      by_cases hk : k0 = k'
      · simp only [hk, if_pos rfl] at hf
        rw [Prod.mk.injEq] at hf
        exact Or.inl hf.1.symm
      · simp only [if_neg hk] at hf
        rw [Prod.mk.injEq] at hf
        refine Or.inr ⟨v0, ?_⟩
        rw [← hf.1]
        exact hp
    · intro hyp
      obtain ⟨v0, hv0⟩ := Option.isSome_iff_exists.mp hs
      rcases hyp with rfl | ⟨v, hv⟩
      · exact ⟨b, List.mem_map.mpr ⟨(k, v0), lookup_mem hv0, by simp⟩⟩
      · by_cases hk : k = k'
        · exact ⟨b, List.mem_map.mpr ⟨(k', v0), lookup_mem hv0, by simp [hk]⟩⟩
        · exact ⟨v, List.mem_map.mpr ⟨(k, v), hv, by simp [hk]⟩⟩
  · rw [if_neg hs]
    constructor
    · rintro ⟨v, hv⟩
      rcases List.mem_append.mp hv with h | h
      · exact Or.inr ⟨v, h⟩
      · simp only [List.mem_singleton] at h
        cases h
        exact Or.inl rfl
    · rintro (rfl | ⟨v, hv⟩)
      · exact ⟨b, List.mem_append.mpr (Or.inr (by simp))⟩
      · exact ⟨v, List.mem_append.mpr (Or.inl hv)⟩

/-- Keys accumulated by the batch loop are the accumulator keys plus the
processed ids. -/
theorem batchAux_mem_keys (env : Env) :
    ∀ (ids : List String) (store : Store) (acc : List (String × Bool)) (k : String),
      (∃ b, (k, b) ∈ (batchAux env store acc ids).1) ↔
        (∃ b, (k, b) ∈ acc) ∨ k ∈ ids := by
  intro ids
  induction ids with
  | nil => intro store acc k; simp [batchAux]
  | cons i rest ih =>
    intro store acc k
    unfold batchAux
    rcases hsc : score_house env store i with ⟨ok, store'⟩
    simp only []
    rw [ih store' (dictInsert acc i ok) k, dictInsert_mem_keys]
    constructor
    · rintro ((rfl | h) | h)
      · exact Or.inr (List.mem_cons_self _ _)
      · exact Or.inl h
      · exact Or.inr (List.mem_cons_of_mem _ h)
    · rintro (h | h)
      · exact Or.inl (Or.inr h)
      · rcases List.mem_cons.mp h with rfl | h
        · exact Or.inl (Or.inl rfl)
        · exact Or.inr h

/-- The batch loop exactly as the specification words it: run the
pipeline once per id, in order, and record the success boolean of each id. -/
def batch_list (env : Env) : Store → List String → List (String × Bool)
  | _, [] => []
  | store, house_id :: rest =>
    let r := score_house env store house_id
    (house_id, r.1) :: batch_list env r.2 rest

theorem batchAux_nodup (env : Env) :
    ∀ (ids : List String) (store : Store) (acc : List (String × Bool)),
      ids.Nodup → (∀ k ∈ ids, acc.lookup k = none) →
      (batchAux env store acc ids).1 = acc ++ batch_list env store ids := by
  intro ids
  induction ids with
  | nil => intro store acc _ _; simp [batchAux, batch_list]
  | cons i rest ih =>
    intro store acc hnd hfresh
    have hacc : acc.lookup i = none := hfresh i (List.mem_cons_self _ _)
    have hins : dictInsert acc i (score_house env store i).1 =
        acc ++ [(i, (score_house env store i).1)] := by
      unfold dictInsert
      rw [if_neg (by simp [hacc])]
    unfold batchAux
    rcases hsc : score_house env store i with ⟨ok, store'⟩
    simp only []
    have hfresh' : ∀ k ∈ rest, (acc ++ [(i, ok)]).lookup k = none := by
      intro k hk
      have hne : k ≠ i := by
        intro hkeq
        subst hkeq
        exact (List.nodup_cons.mp hnd).1 hk
      rw [lookup_append_none _ _ (hfresh k (List.mem_cons_of_mem _ hk))]
      have hbf : (k == i) = false := beq_eq_false_iff_ne.mpr hne
      simp [List.lookup, hbf]
    rw [hsc] at hins
    simp only at hins
    have hbl : batch_list env store (i :: rest) = (i, ok) :: batch_list env store' rest := by
      show (let r := score_house env store i; (i, r.1) :: batch_list env r.2 rest) =
        (i, ok) :: batch_list env store' rest
      rw [hsc]
    rw [hins, ih store' (acc ++ [(i, ok)]) (List.nodup_cons.mp hnd).2 hfresh', hbl]
    simp

/-- C4: the batch runner maps every processed id (the given list, or all
stored houses lacking a primary score when ids are omitted) to a success
boolean; for duplicate-free id lists the result is exactly one
`score_house` run per id, in order, and the failure of a single entity cannot
stop the batch because `score_house` is total (stage exceptions are
absorbed into the boolean). -/
theorem C4_batch_isolated_per_id :
    (∀ (env : Env) (store : Store) (ids : List String) (k : String),
      ((∃ b, (k, b) ∈ (batch_score env store (some ids)).1) ↔ k ∈ ids)) ∧
    (∀ (env : Env) (store : Store) (k : String),
      ((∃ b, (k, b) ∈ (batch_score env store none).1) ↔
        k ∈ (get_unscored_houses store).map House.id)) ∧
    (∀ (env : Env) (store : Store) (ids : List String), ids.Nodup →
      (batch_score env store (some ids)).1 = batch_list env store ids) := by
  refine ⟨?_, ?_, ?_⟩
  · intro env store ids k
    unfold batch_score
    rw [batchAux_mem_keys]
    simp
  · intro env store k
    unfold batch_score
    rw [batchAux_mem_keys]
    simp
  · intro env store ids hnd
    unfold batch_score
    rw [batchAux_nodup env ids store [] hnd (by intro k _; simp [List.lookup])]
    simp

/-- Witness for `C4_batch_isolated_per_id`: a concrete two-id batch in
which the second house is missing produces the per-id outcome list. -/
theorem C4_batch_isolated_per_id_witness :
    ((∃ b, ("h", b) ∈ (batch_score envA [("h", houseA)] (some ["h", "g"])).1) ↔
      "h" ∈ ["h", "g"]) ∧
    (batch_score envA [("h", houseA)] (some ["h", "g"])).1 =
      batch_list envA [("h", houseA)] ["h", "g"] :=
  ⟨C4_batch_isolated_per_id.1 envA [("h", houseA)] ["h", "g"] "h",
   C4_batch_isolated_per_id.2.2 envA [("h", houseA)] ["h", "g"] (by decide)⟩

/-- The subsequence of a batch that gets persisted, exactly as the claim
words it: a record is kept iff its normalized natural key does not exist
in the store at the time it is processed. -/
def savedBySpec (store : Store) : List House → List House
  | [] => []
  | h :: rest =>
    if house_exists store h.address then savedBySpec store rest
    else h :: savedBySpec (save_house store h) rest

/-- First house of the duplicate-detection example. -/
def houseOak1 : House := ⟨"a", "456 Oak Ave", [], none, none, none, "", 0, none⟩

/-- Second house of the duplicate-detection example, a duplicate of the
first under address normalization. -/
def houseOak2 : House := ⟨"b", "456 oak avenue", [], none, none, none, "", 0, none⟩

/-- C6: bulk save persists exactly the records whose normalized address
is not already present when they are processed, skips the rest, and its
counts satisfy saved + skipped = batch size; ingesting "456 Oak Ave"
followed by "456 oak avenue" saves the first and skips the second. -/
theorem C6_bulk_save_skips_duplicates :
    (∀ (store : Store) (hs : List House),
      (bulk_save_houses store hs).1.1 + (bulk_save_houses store hs).1.2 = hs.length) ∧
    (∀ (store : Store) (hs : List House),
      (bulk_save_houses store hs).1.1 = (savedBySpec store hs).length) ∧
    (∀ (store : Store) (hs : List House),
      (bulk_save_houses store hs).2 = (savedBySpec store hs).foldl save_house store) ∧
    bulk_save_houses [] [houseOak1, houseOak2] = ((1, 1), [("a", houseOak1)]) ∧
    normalize_address "456 Oak Ave" = normalize_address "456 oak avenue" := by
  refine ⟨?_, ?_, ?_, by decide, by decide⟩
  · intro store hs
    induction hs generalizing store with
    | nil => simp [bulk_save_houses]
    | cons h t ih =>
      unfold bulk_save_houses
      by_cases he : house_exists store h.address
      · rw [if_pos he]
        rcases hb : bulk_save_houses store t with ⟨⟨saved, skipped⟩, store2⟩
        have := ih store
        rw [hb] at this
        simp only [hb] at this ⊢
        simp at this ⊢
        omega
      · rw [if_neg he]
        rcases hb : bulk_save_houses (save_house store h) t with ⟨⟨saved, skipped⟩, store2⟩
        have := ih (save_house store h)
        rw [hb] at this
        simp at this ⊢
        omega
  · intro store hs
    induction hs generalizing store with
    | nil => simp [bulk_save_houses, savedBySpec]
    | cons h t ih =>
      unfold bulk_save_houses savedBySpec
      by_cases he : house_exists store h.address
      · rw [if_pos he, if_pos he]
        rcases hb : bulk_save_houses store t with ⟨⟨saved, skipped⟩, store2⟩
        have := ih store
        rw [hb] at this
        simpa using this
      · rw [if_neg he, if_neg he]
        rcases hb : bulk_save_houses (save_house store h) t with ⟨⟨saved, skipped⟩, store2⟩
        have := ih (save_house store h)
        rw [hb] at this
        simpa using this
  · intro store hs
    induction hs generalizing store with
    | nil => simp [bulk_save_houses, savedBySpec]
    | cons h t ih =>
      unfold bulk_save_houses savedBySpec
      by_cases he : house_exists store h.address
      · rw [if_pos he, if_pos he]
        rcases hb : bulk_save_houses store t with ⟨⟨saved, skipped⟩, store2⟩
        have := ih store
        rw [hb] at this
        simpa using this
      · rw [if_neg he, if_neg he]
        rcases hb : bulk_save_houses (save_house store h) t with ⟨⟨saved, skipped⟩, store2⟩
        have := ih (save_house store h)
        rw [hb] at this
        simpa using this

/-! ## Idempotency analysis of `normalize_address` -/

theorem toLower_toLower (c : Char) : c.toLower.toLower = c.toLower := by
  by_cases h : 65 ≤ c.toNat ∧ c.toNat ≤ 90
  · have hc : c = Char.ofNat c.toNat := (Char.ofNat_toNat c).symm
    obtain ⟨h1, h2⟩ := h
    set n := c.toNat with hn
    clear_value n
    subst hc
    interval_cases n <;> decide
  · have hl : c.toLower = c := by
      unfold Char.toLower
      rw [if_neg (by omega)]
    rw [hl, hl]

/-- Words produced by the splitter are non-empty and whitespace-free. -/
theorem wordsAux_words_good :
    ∀ (s acc : Str), (∀ c ∈ acc, c.isWhitespace = false) →
      ∀ w ∈ wordsAux s acc, w ≠ [] ∧ ∀ c ∈ w, c.isWhitespace = false := by
  intro s
  induction s with
  | nil =>
    intro acc hacc w hw
    unfold wordsAux at hw
    by_cases he : acc.isEmpty
    · rw [if_pos he] at hw
      simp at hw
    · rw [if_neg he] at hw
      simp only [List.mem_singleton] at hw
      subst hw
      refine ⟨by simpa [List.isEmpty_iff] using he, ?_⟩
      intro c hc
      exact hacc c (List.mem_reverse.mp hc)
  | cons a t ih =>
    intro acc hacc w hw
    unfold wordsAux at hw
    by_cases hws : a.isWhitespace
    · rw [if_pos hws] at hw
      by_cases he : acc.isEmpty
      · rw [if_pos he] at hw
        exact ih [] (by simp) w hw
      · rw [if_neg he] at hw
        rcases List.mem_cons.mp hw with rfl | hw'
        · refine ⟨by simpa [List.isEmpty_iff] using he, ?_⟩
          intro c hc
          exact hacc c (List.mem_reverse.mp hc)
        · exact ih [] (by simp) w hw'
    · rw [if_neg hws] at hw
      refine ih (a :: acc) ?_ w hw
      intro c hc
      rcases List.mem_cons.mp hc with rfl | hc'
      · simpa using hws
      · exact hacc c hc'

/-- Characters of the splitter output words come from the input or the
accumulator. -/
theorem wordsAux_chars_sub :
    ∀ (s acc : Str) (w : Str) (c : Char), w ∈ wordsAux s acc → c ∈ w →
      c ∈ s ∨ c ∈ acc := by
  intro s
  induction s with
  | nil =>
    intro acc w c hw hc
    unfold wordsAux at hw
    by_cases he : acc.isEmpty
    · rw [if_pos he] at hw
      simp at hw
    · rw [if_neg he] at hw
      simp only [List.mem_singleton] at hw
      subst hw
      exact Or.inr (List.mem_reverse.mp hc)
  | cons a t ih =>
    intro acc w c hw hc
    unfold wordsAux at hw
    by_cases hws : a.isWhitespace
    · rw [if_pos hws] at hw
      by_cases he : acc.isEmpty
      · rw [if_pos he] at hw
        rcases ih [] w c hw hc with h | h
        · exact Or.inl (List.mem_cons_of_mem _ h)
        · simp at h
      · rw [if_neg he] at hw
        rcases List.mem_cons.mp hw with rfl | hw'
        · exact Or.inr (List.mem_reverse.mp hc)
        · rcases ih [] w c hw' hc with h | h
          · exact Or.inl (List.mem_cons_of_mem _ h)
          · simp at h
    · rw [if_neg hws] at hw
      rcases ih (a :: acc) w c hw hc with h | h
      · exact Or.inl (List.mem_cons_of_mem _ h)
      · rcases List.mem_cons.mp h with rfl | h'
        · exact Or.inl (List.mem_cons_self _ _)
        · exact Or.inr h'

/-- Scanning a whitespace-free word prepends it (reversed) to the
accumulator. -/
theorem wordsAux_append_word :
    ∀ (w acc rest : Str), (∀ c ∈ w, c.isWhitespace = false) →
      wordsAux (w ++ rest) acc = wordsAux rest (w.reverse ++ acc) := by
  intro w
  induction w with
  | nil => intro acc rest _; simp
  | cons a t ih =>
    intro acc rest hgood
    have ha : a.isWhitespace = false := hgood a (List.mem_cons_self _ _)
    simp only [List.cons_append, wordsAux, List.append_eq]
    rw [if_neg (by simp [ha])]
    rw [ih (a :: acc) rest (fun c hc => hgood c (List.mem_cons_of_mem _ hc))]
    simp

/-- Splitting the space-join of non-empty whitespace-free words recovers
the words. -/
theorem pyWords_joinSpace :
    ∀ ws : List Str, (∀ w ∈ ws, w ≠ [] ∧ ∀ c ∈ w, c.isWhitespace = false) →
      pyWords (joinSpace ws) = ws := by
  intro ws
  induction ws with
  | nil => intro _; rfl
  | cons w t ih =>
    intro hgood
    obtain ⟨hw, hwchars⟩ := hgood w (List.mem_cons_self _ _)
    cases t with
    | nil =>
      have hj : joinSpace [w] = w := by simp [joinSpace]
      rw [hj]
      unfold pyWords
      rw [show w = w ++ ([] : Str) by simp, wordsAux_append_word w [] [] hwchars]
      unfold wordsAux
      rw [if_neg (by simp [List.isEmpty_iff, hw])]
      simp
    | cons w2 t2 =>
      have hj : joinSpace (w :: w2 :: t2) = w ++ (' ' :: joinSpace (w2 :: t2)) := by
        simp [joinSpace, List.intersperse]
      rw [hj]
      unfold pyWords
      rw [wordsAux_append_word w [] (' ' :: joinSpace (w2 :: t2)) hwchars]
      unfold wordsAux
      rw [if_pos (by decide), if_neg (by simp [List.isEmpty_iff, hw])]
      rw [show wordsAux (joinSpace (w2 :: t2)) [] = pyWords (joinSpace (w2 :: t2)) from rfl]
      rw [ih (fun x hx => hgood x (List.mem_cons_of_mem _ hx))]
      simp

/-- Collapsing whitespace is idempotent. -/
theorem collapseWs_collapseWs (s : Str) : collapseWs (collapseWs s) = collapseWs s := by
  unfold collapseWs
  rw [pyWords_joinSpace (pyWords s) (wordsAux_words_good s [] (by simp))]

theorem mem_intersperse_space :
    ∀ (ws : List Str) (l : Str), l ∈ ws.intersperse [' '] → l ∈ ws ∨ l = [' '] := by
  intro ws
  induction ws with
  | nil => intro l hl; simp at hl
  | cons w t ih =>
    intro l hl
    cases t with
    | nil =>
      simp only [List.intersperse] at hl
      simp only [List.mem_singleton] at hl
      exact Or.inl (by simp [hl])
    | cons w2 t2 =>
      simp only [List.intersperse] at hl
      rcases List.mem_cons.mp hl with rfl | hl'
      · exact Or.inl (List.mem_cons_self _ _)
      · rcases List.mem_cons.mp hl' with rfl | hl2
        · exact Or.inr rfl
        · rcases ih l hl2 with h | h
          · exact Or.inl (List.mem_cons_of_mem _ h)
          · exact Or.inr h

/-- Characters of a collapsed string come from the input or are spaces. -/
theorem mem_collapseWs {c : Char} {s : Str} (h : c ∈ collapseWs s) :
    c ∈ s ∨ c = ' ' := by
  unfold collapseWs joinSpace at h
  rcases List.mem_flatten.mp h with ⟨l, hl, hc⟩
  rcases mem_intersperse_space (pyWords s) l hl with hw | hsp
  · rcases wordsAux_chars_sub s [] l c hw hc with h | h
    · exact Or.inl h
    · simp at h
  · subst hsp
    simp only [List.mem_singleton] at hc
    exact Or.inr hc

/-- `str.replace` is the identity when the pattern does not occur. -/
theorem replaceAllFuel_id (p r : Str) :
    ∀ (fuel : Nat) (s : Str), containsSub p s = false → replaceAllFuel p r fuel s = s := by
  intro fuel
  induction fuel with
  | zero => intro s _; cases s <;> rfl
  | succ f ih =>
    intro s hs
    cases s with
    | nil => rfl
    | cons c cs =>
      unfold containsSub at hs
      rcases Bool.or_eq_false_iff.mp hs with ⟨h1, h2⟩
      unfold replaceAllFuel
      rw [if_neg (by simp [h1])]
      rw [ih cs h2]

/-- Characters produced by `str.replace` come from the input or the
replacement text. -/
theorem replaceAllFuel_chars (p r : Str) :
    ∀ (fuel : Nat) (s : Str) (c : Char), c ∈ replaceAllFuel p r fuel s →
      c ∈ s ∨ c ∈ r := by
  intro fuel
  induction fuel with
  | zero =>
    intro s c hc
    cases s with
    | nil => simp [replaceAllFuel] at hc
    | cons a t => exact Or.inl hc
  | succ f ih =>
    intro s c hc
    cases s with
    | nil => simp [replaceAllFuel] at hc
    | cons a t =>
      unfold replaceAllFuel at hc
      by_cases hp : p.isPrefixOf (a :: t)
      · rw [if_pos hp] at hc
        rcases List.mem_append.mp hc with h | h
        · exact Or.inr h
        · rcases ih _ c h with h' | h'
          · exact Or.inl (List.drop_subset _ _ h')
          · exact Or.inr h'
      · rw [if_neg hp] at hc
        rcases List.mem_cons.mp hc with rfl | h
        · exact Or.inl (List.mem_cons_self _ _)
        · rcases ih t c h with h' | h'
          · exact Or.inl (List.mem_cons_of_mem _ h')
          · exact Or.inr h'

/-- Occurrence test matching the shape of `applyReplacement`: suffix
match for a `$`-pattern, substring occurrence otherwise. -/
def abbrOccurs (s : Str) (abbr : Str) : Bool :=
  if abbr.getLast? = some '$' then abbr.dropLast.isSuffixOf s else containsSub abbr s

/-- Does any abbreviation pattern of the replacement table still occur? -/
def hasAbbrOcc (s : Str) : Bool := replacements.any (fun rule => abbrOccurs s rule.1)

theorem applyReplacement_id {s : Str} {rule : Str × Str}
    (h : abbrOccurs s rule.1 = false) : applyReplacement s rule = s := by
  unfold applyReplacement
  unfold abbrOccurs at h
  by_cases hd : rule.1.getLast? = some '$'
  · rw [if_pos hd] at h
    rw [if_pos hd, if_neg (by simp [h])]
  · rw [if_neg hd] at h
    rw [if_neg hd]
    exact replaceAllFuel_id _ _ _ _ h

theorem applyReplacements_id {s : Str} (h : hasAbbrOcc s = false) :
    applyReplacements s = s := by
  unfold hasAbbrOcc at h
  have hall : ∀ rule ∈ replacements, abbrOccurs s rule.1 = false := by
    intro rule hr
    rcases List.any_eq_false.mp h rule hr with h'
    simpa using h'
  unfold applyReplacements
  generalize hrs : replacements = rules at hall
  clear hrs
  induction rules with
  | nil => rfl
  | cons rule t ih =>
    rw [List.foldl_cons, applyReplacement_id (hall rule (List.mem_cons_self _ _))]
    exact ih (fun r hr => hall r (List.mem_cons_of_mem _ hr))

/-- Characters surviving one normalization pass: alphanumeric-or-space
and fixed by lowercasing. -/
def GoodChar (c : Char) : Prop := (c.isAlphanum = true ∨ c = ' ') ∧ c.toLower = c

instance (c : Char) : Decidable (GoodChar c) := by
  unfold GoodChar
  infer_instance

theorem replacement_texts_good :
    ∀ rule ∈ replacements, ∀ c ∈ rule.2, GoodChar c := by decide

theorem applyReplacement_chars {s : Str} {rule : Str × Str}
    (hr : rule ∈ replacements) (hs : ∀ c ∈ s, GoodChar c) :
    ∀ c ∈ applyReplacement s rule, GoodChar c := by
  have hfull := replacement_texts_good rule hr
  unfold applyReplacement
  by_cases hd : rule.1.getLast? = some '$'
  · rw [if_pos hd]
    by_cases hsf : (rule.1.dropLast).isSuffixOf s
    · rw [if_pos hsf]
      intro c hc
      rcases List.mem_append.mp hc with h | h
      · exact hs c (List.take_subset _ _ h)
      · exact hfull c h
    · rw [if_neg hsf]
      exact hs
  · rw [if_neg hd]
    intro c hc
    unfold pyReplace at hc
    rcases replaceAllFuel_chars _ _ _ _ c hc with h | h
    · exact hs c h
    · exact hfull c h

theorem applyReplacements_chars {s : Str} (hs : ∀ c ∈ s, GoodChar c) :
    ∀ c ∈ applyReplacements s, GoodChar c := by
  unfold applyReplacements
  have key : ∀ rules : List (Str × Str), (∀ r ∈ rules, r ∈ replacements) →
      ∀ s : Str, (∀ c ∈ s, GoodChar c) → ∀ c ∈ rules.foldl applyReplacement s, GoodChar c := by
    intro rules
    induction rules with
    | nil => intro _ s hs c hc; exact hs c hc
    | cons r t ih =>
      intro hsub s hs c hc
      rw [List.foldl_cons] at hc
      exact ih (fun x hx => hsub x (List.mem_cons_of_mem _ hx)) _
        (applyReplacement_chars (hsub r (List.mem_cons_self _ _)) hs) c hc
  exact key replacements (fun r hr => hr) s hs

theorem punctToSpace_chars {s : Str} (hs : ∀ c ∈ s, c.toLower = c) :
    ∀ c ∈ punctToSpace s, GoodChar c := by
  intro c hc
  unfold punctToSpace at hc
  rcases List.mem_map.mp hc with ⟨d, hd, hf⟩
  by_cases h : d.isAlphanum || d = ' '
  · rw [if_pos h] at hf
    subst hf
    refine ⟨?_, hs d hd⟩
    simpa using h
  · rw [if_neg h] at hf
    subst hf
    exact ⟨Or.inr rfl, by decide⟩

theorem collapse_lower_chars (a : Str) :
    ∀ c ∈ collapseWs (lowerStr a), c.toLower = c := by
  intro c hc
  rcases mem_collapseWs hc with h | h
  · unfold lowerStr at h
    rcases List.mem_map.mp h with ⟨d, _, hf⟩
    subst hf
    exact toLower_toLower d
  · subst h
    decide

/-- Every character of a normalized address is alphanumeric-or-space and
lowercase-fixed. -/
theorem normalizeList_chars (a : Str) : ∀ c ∈ normalizeList a, GoodChar c := by
  intro c hc
  simp only [normalizeList] at hc
  rcases mem_collapseWs hc with h | h
  · exact applyReplacements_chars (punctToSpace_chars (collapse_lower_chars a)) c h
  · subst h
    exact ⟨Or.inr rfl, by decide⟩

theorem map_id_of_fixed {f : Char → Char} :
    ∀ s : Str, (∀ c ∈ s, f c = c) → s.map f = s := by
  intro s
  induction s with
  | nil => intro _; rfl
  | cons a t ih =>
    intro h
    rw [List.map_cons, h a (List.mem_cons_self _ _),
      ih (fun c hc => h c (List.mem_cons_of_mem _ hc))]

/-- Conditional idempotency of `normalize_address`: a second pass is the
identity whenever the first pass left no abbreviation occurrence. -/
theorem normalizeList_idem (a : Str) (h : hasAbbrOcc (normalizeList a) = false) :
    normalizeList (normalizeList a) = normalizeList a := by
  have hgood := normalizeList_chars a
  have hlower : lowerStr (normalizeList a) = normalizeList a :=
    map_id_of_fixed _ (fun c hc => (hgood c hc).2)
  have hcol : collapseWs (normalizeList a) = normalizeList a := by
    show collapseWs (collapseWs (applyReplacements (punctToSpace (collapseWs (lowerStr a))))) =
      normalizeList a
    rw [collapseWs_collapseWs]
    rfl
  have hpunct : punctToSpace (normalizeList a) = normalizeList a := by
    unfold punctToSpace
    refine map_id_of_fixed _ (fun c hc => ?_)
    rcases (hgood c hc).1 with h' | h'
    · rw [if_pos (by simp [h'])]
    · rw [if_pos (by simp [h'])]
  have hrepl := applyReplacements_id h
  show collapseWs (applyReplacements (punctToSpace (collapseWs (lowerStr (normalizeList a))))) =
    normalizeList a
  rw [hlower, hcol, hpunct, hrepl, hcol]

/-- C5 counterexample: address normalization is not idempotent as claimed;
"1 st st x" normalizes to "1 street st x" whose second normalization is
"1 street street x" (Python `str.replace` consumes the shared space of
consecutive abbreviations, leaving a fresh occurrence for the next pass). -/
theorem C5_normalize_not_idempotent_counterexample :
    normalize_address (normalize_address "1 st st x") ≠ normalize_address "1 st st x" := by
  have h1 : normalize_address "1 st st x" = "1 street st x" := by decide
  rw [h1]
  decide

/-- C5 (amended): normalization is idempotent on every address whose
single normalization leaves no street-type abbreviation occurrence (in
particular on the worked examples), and it is case-, punctuation- and
abbreviation-insensitive: normalize "123 Main St." equals
normalize "123 MAIN STREET". -/
theorem C5_normalize_idempotent_amended :
    (∀ a : Str, hasAbbrOcc (normalizeList a) = false →
      normalizeList (normalizeList a) = normalizeList a) ∧
    (∀ a : String, normalize_address a = ⟨normalizeList a.data⟩) ∧
    normalize_address "123 Main St." = normalize_address "123 MAIN STREET" :=
  ⟨normalizeList_idem, fun _ => rfl, by decide⟩

/-- Witness for `C5_normalize_idempotent_amended` at "123 Main St.". -/
theorem C5_normalize_idempotent_amended_witness :
    hasAbbrOcc (normalizeList "123 Main St.".data) = false ∧
    normalizeList (normalizeList "123 Main St.".data) = normalizeList "123 Main St.".data :=
  ⟨by decide, C5_normalize_idempotent_amended.1 "123 Main St.".data (by decide)⟩
